import Mathlib

/-!
Verification of the ranking/acquisition engine of `hotshot_mobile.py`
(Hotshot Finder Mobile): quota metering, TTL caching, batched fetching,
cross-region dedup, scoring and sorting.  Python floats are modelled by
rationals; `round(x, 1)` is modelled by round-half-to-even at one decimal.
-/

namespace Hotshot

/-- Operation kinds carrying a quota weight (the keys of `QUOTA_COSTS`). -/
inductive OpKind where
  | search
  | videos
  | channels
deriving DecidableEq

/-- Source constant `QUOTA_COSTS = {'search': 100, 'videos': 1, 'channels': 1}`. -/
def QUOTA_COSTS : OpKind → ℕ
  | .search => 100
  | .videos => 1
  | .channels => 1

/-- Source constant `SHORTS_DURATION_LIMIT = 180`. -/
def SHORTS_DURATION_LIMIT : ℕ := 180

/-- Source constant `MAX_RESULTS_TOTAL = 50`. -/
def MAX_RESULTS_TOTAL : ℕ := 50

/-- Source constant `DAILY_QUOTA_LIMIT = 10000`. -/
def DAILY_QUOTA_LIMIT : ℕ := 10000

/-- Round a rational to the nearest integer, ties to even
(the rounding Python's `round` performs). -/
def roundHalfEven (q : ℚ) : ℤ :=
  if q - ⌊q⌋ < 1/2 then ⌊q⌋
  else if 1/2 < q - ⌊q⌋ then ⌊q⌋ + 1
  else if ⌊q⌋ % 2 = 0 then ⌊q⌋ else ⌊q⌋ + 1

/-- Python `round(q, 1)`: round to one decimal place, ties to even. -/
def round1 (q : ℚ) : ℚ := (roundHalfEven (q * 10) : ℚ) / 10

/-- The mutation at the top of `calc_global_score`:
`if hours_since <= 0: hours_since = 0.1`.  This is the divisor actually
used for the velocity sub-score. -/
def hoursEff (hours_since : ℚ) : ℚ := if hours_since ≤ 0 then 1/10 else hours_since

/-- `velocity_score = min(40, (velocity / 10000) * 40)` with
`velocity = views / hours_since` after the non-positive floor. -/
def velocity_score (views : ℕ) (hours_since : ℚ) : ℚ :=
  min 40 ((((views : ℚ) / hoursEff hours_since) / 10000) * 40)

/-- `engagement_score = min(30, (engagement * 100) * 30)` with
`engagement = (likes + comments * 2) / max(views, 1)`. -/
def engagement_score (views likes comments : ℕ) : ℚ :=
  min 30 (((((likes : ℚ) + (comments : ℚ) * 2) / max (views : ℚ) 1) * 100) * 30)

/-- `views_score = min(20, (views / 1_000_000) * 20)`. -/
def views_score (views : ℕ) : ℚ :=
  min 20 (((views : ℚ) / 1000000) * 20)

/-- `sub_score`: `min(10, (views / subscribers) * 2)` when `subscribers > 0`,
otherwise the fixed default `5`. -/
def sub_score (views subscribers : ℕ) : ℚ :=
  if 0 < subscribers then min 10 (((views : ℚ) / (subscribers : ℚ)) * 2) else 5

/-- `calc_global_score(views, likes, comments, subscribers, hours_since)`:
sum of the four sub-scores, clamped above by 100 and rounded to one decimal. -/
def calc_global_score (views likes comments subscribers : ℕ)
    (hours_since : ℚ) : ℚ :=
  round1 (min 100
    (velocity_score views hours_since + engagement_score views likes comments +
      views_score views + sub_score views subscribers))

/-- The velocity computed in the results loops (lines 407 and 488):
`velocity = data['views'] / max(hours_since, 0.1)`. -/
def loop_velocity (views : ℕ) (hours_since : ℚ) : ℚ :=
  (views : ℚ) / max hours_since (1/10)

/-- Spec-variant of the velocity sub-score: identical to `velocity_score`
except that the divisor follows the spec wording `max(hours_since, 0.1)`.
Used only to compare the spec's claimed floor with the code's actual floor. -/
def velocity_score_specFloor (views : ℕ) (hours_since : ℚ) : ℚ :=
  min 40 ((((views : ℚ) / max hours_since (1/10)) / 10000) * 40)

/-- Spec-variant of the total score built on `velocity_score_specFloor`. -/
def calc_global_score_specFloor (views likes comments subscribers : ℕ)
    (hours_since : ℚ) : ℚ :=
  round1 (min 100
    (velocity_score_specFloor views hours_since + engagement_score views likes comments +
      views_score views + sub_score views subscribers))

/-! Basic lemmas about the rounding function. -/

theorem floor_le_roundHalfEven (q : ℚ) : ⌊q⌋ ≤ roundHalfEven q := by
  unfold roundHalfEven; split_ifs <;> omega

theorem roundHalfEven_le_floor_add_one (q : ℚ) : roundHalfEven q ≤ ⌊q⌋ + 1 := by
  unfold roundHalfEven; split_ifs <;> omega

theorem le_roundHalfEven {n : ℤ} {q : ℚ} (h : (n : ℚ) ≤ q) : n ≤ roundHalfEven q :=
  le_trans (Int.le_floor.mpr h) (floor_le_roundHalfEven q)

theorem roundHalfEven_le {n : ℤ} {q : ℚ} (h : q ≤ (n : ℚ)) : roundHalfEven q ≤ n := by
  have hf : ⌊q⌋ ≤ n := by
    have := Int.floor_le_floor h
    rwa [Int.floor_intCast] at this
  unfold roundHalfEven
  split_ifs with h1 h2 h3
  · exact hf
  · have hq : (⌊q⌋ : ℚ) < q := by linarith
    have : ⌊q⌋ < n := by exact_mod_cast hq.trans_le h
    omega
  · exact hf
  · push_neg at h1
    have hq : (⌊q⌋ : ℚ) < q := by linarith
    have : ⌊q⌋ < n := by exact_mod_cast hq.trans_le h
    omega

theorem roundHalfEven_mono {q q' : ℚ} (h : q ≤ q') :
    roundHalfEven q ≤ roundHalfEven q' := by
  rcases lt_or_le ⌊q⌋ ⌊q'⌋ with hlt | hle
  · calc roundHalfEven q ≤ ⌊q⌋ + 1 := roundHalfEven_le_floor_add_one q
      _ ≤ ⌊q'⌋ := by omega
      _ ≤ roundHalfEven q' := floor_le_roundHalfEven q'
  · have heq : ⌊q⌋ = ⌊q'⌋ := le_antisymm (Int.floor_le_floor h) hle
    unfold roundHalfEven
    rw [heq]
    split_ifs <;> first | omega | (exfalso; linarith)

theorem round1_mono {q q' : ℚ} (h : q ≤ q') : round1 q ≤ round1 q' := by
  unfold round1
  have hm := roundHalfEven_mono (by linarith : q * 10 ≤ q' * 10)
  have h10 : (0 : ℚ) < 10 := by norm_num
  exact (div_le_div_iff_of_pos_right h10).mpr (by exact_mod_cast hm)

theorem round1_bounds {q : ℚ} (h0 : 0 ≤ q) (h1 : q ≤ 100) :
    0 ≤ round1 q ∧ round1 q ≤ 100 := by
  unfold round1
  have lo : (0 : ℤ) ≤ roundHalfEven (q * 10) :=
    le_roundHalfEven (by push_cast; linarith)
  have hi : roundHalfEven (q * 10) ≤ (1000 : ℤ) :=
    roundHalfEven_le (by push_cast; linarith)
  constructor
  · exact div_nonneg (by exact_mod_cast lo) (by norm_num)
  · rw [div_le_iff₀ (by norm_num : (0 : ℚ) < 10)]
    calc ((roundHalfEven (q * 10) : ℚ)) ≤ (1000 : ℚ) := by exact_mod_cast hi
      _ = 100 * 10 := by norm_num

/-! Bounds for the four sub-scores. -/

theorem hoursEff_pos (h : ℚ) : 0 < hoursEff h := by
  unfold hoursEff
  split_ifs with h1
  · norm_num
  · exact lt_of_not_le h1

theorem velocity_score_mem (v : ℕ) (h : ℚ) :
    0 ≤ velocity_score v h ∧ velocity_score v h ≤ 40 := by
  refine ⟨le_min (by norm_num) ?_, min_le_left _ _⟩
  have hp := (hoursEff_pos h).le
  have h1 : (0 : ℚ) ≤ (v : ℚ) / hoursEff h := div_nonneg (by positivity) hp
  have h2 : (0 : ℚ) ≤ ((v : ℚ) / hoursEff h) / 10000 := div_nonneg h1 (by norm_num)
  nlinarith

theorem engagement_score_mem (v l c : ℕ) :
    0 ≤ engagement_score v l c ∧ engagement_score v l c ≤ 30 := by
  refine ⟨le_min (by norm_num) ?_, min_le_left _ _⟩
  have hd : (0 : ℚ) ≤ max (v : ℚ) 1 := le_trans (by norm_num) (le_max_right _ _)
  have h1 : (0 : ℚ) ≤ ((l : ℚ) + (c : ℚ) * 2) / max (v : ℚ) 1 :=
    div_nonneg (by positivity) hd
  nlinarith

theorem views_score_mem (v : ℕ) : 0 ≤ views_score v ∧ views_score v ≤ 20 := by
  refine ⟨le_min (by norm_num) ?_, min_le_left _ _⟩
  positivity

theorem sub_score_mem (v s : ℕ) : 0 ≤ sub_score v s ∧ sub_score v s ≤ 10 := by
  unfold sub_score
  split_ifs with hs
  · refine ⟨le_min (by norm_num) ?_, min_le_left _ _⟩
    positivity
  · norm_num

theorem sub_score_zero (v : ℕ) : sub_score v 0 = 5 := by
  unfold sub_score
  norm_num

/-- C3: for every non-negative integer views, likes, comments, subscribers and
any rational hours_since, `calc_global_score` lies in [0, 100]; the four
sub-scores are capped at 40, 30, 20 and 10 respectively, and the
zero-subscriber default is the fixed value 5. -/
theorem calc_global_score_in_range (v l c s : ℕ) (h : ℚ) :
    (0 ≤ calc_global_score v l c s h ∧ calc_global_score v l c s h ≤ 100) ∧
    velocity_score v h ≤ 40 ∧ engagement_score v l c ≤ 30 ∧
    views_score v ≤ 20 ∧ sub_score v s ≤ 10 ∧ sub_score v 0 = 5 := by
  have hv := velocity_score_mem v h
  have he := engagement_score_mem v l c
  have hw := views_score_mem v
  have hs := sub_score_mem v s
  refine ⟨?_, hv.2, he.2, hw.2, hs.2, sub_score_zero v⟩
  have htot0 : 0 ≤ velocity_score v h + engagement_score v l c +
      views_score v + sub_score v s := by
    linarith [hv.1, he.1, hw.1, hs.1]
  unfold calc_global_score
  exact round1_bounds (le_min (by norm_num) htot0) (min_le_left _ _)

/-- C1 counterexample: with likes = 1, comments = 0, subscribers = 0 and
hours_since = 1000 fixed, raising views from 200 to 400 strictly decreases
the total score (20.0 drops to 12.5): the engagement sub-score falls faster
than the velocity and views sub-scores rise.  The score is therefore not
monotone in views. -/
theorem calc_global_score_views_not_mono :
    calc_global_score 200 1 0 0 1000 = 20 ∧
    calc_global_score 400 1 0 0 1000 = 125/10 ∧
    calc_global_score 400 1 0 0 1000 < calc_global_score 200 1 0 0 1000 := by
  refine ⟨?_, ?_, ?_⟩ <;>
    norm_num [calc_global_score, round1, roundHalfEven, velocity_score,
      engagement_score, views_score, sub_score, hoursEff]

/-- C1 amended: holding the other inputs fixed, the total score is
monotonically non-decreasing in likes and in comments (only the engagement
numerator depends on them); monotonicity in views fails. -/
theorem calc_global_score_mono_likes_comments
    (v l l' c c' s : ℕ) (h : ℚ) (hl : l ≤ l') (hc : c ≤ c') :
    calc_global_score v l c s h ≤ calc_global_score v l' c' s h := by
  have he : engagement_score v l c ≤ engagement_score v l' c' := by
    unfold engagement_score
    have hd : (0 : ℚ) < max (v : ℚ) 1 := lt_of_lt_of_le one_pos (le_max_right _ _)
    have h1 : (l : ℚ) ≤ (l' : ℚ) := by exact_mod_cast hl
    have h2 : (c : ℚ) ≤ (c' : ℚ) := by exact_mod_cast hc
    have hnum : (l : ℚ) + (c : ℚ) * 2 ≤ (l' : ℚ) + (c' : ℚ) * 2 := by linarith
    apply min_le_min (le_refl _)
    have hdiv : ((l : ℚ) + (c : ℚ) * 2) / max (v : ℚ) 1 ≤
        ((l' : ℚ) + (c' : ℚ) * 2) / max (v : ℚ) 1 := by gcongr
    nlinarith
  unfold calc_global_score
  apply round1_mono
  apply min_le_min (le_refl _)
  linarith

/-- Witness for `calc_global_score_mono_likes_comments` at views 5,
likes 1 ≤ 4, comments 0 ≤ 2, subscribers 2, hours_since 3. -/
theorem calc_global_score_mono_likes_comments_w :
    calc_global_score 5 1 0 2 3 ≤ calc_global_score 5 4 2 2 3 :=
  calc_global_score_mono_likes_comments 5 1 4 0 2 2 3 (by decide) (by decide)

/-- C2 counterexample: at hours_since = 1/20 (3 minutes, strictly between 0
and 0.1 hours) the divisor used by `calc_global_score` is 1/20 itself, not
the claimed `max(hours_since, 0.1) = 1/10`; at views = 100 this changes the
total score (13.0 under the code vs 9.0 under the spec's floor). -/
theorem hoursEff_ne_specFloor :
    hoursEff (1/20) = 1/20 ∧ max ((1 : ℚ)/20) (1/10) = 1/10 ∧
    calc_global_score 100 0 0 0 (1/20) = 13 ∧
    calc_global_score_specFloor 100 0 0 0 (1/20) = 9 ∧
    calc_global_score 100 0 0 0 (1/20) ≠ calc_global_score_specFloor 100 0 0 0 (1/20) := by
  refine ⟨?_, ?_, ?_, ?_, ?_⟩ <;>
    norm_num [hoursEff, calc_global_score, calc_global_score_specFloor,
      velocity_score, velocity_score_specFloor, engagement_score, views_score,
      sub_score, round1, roundHalfEven]

/-- C2 amended: inside `calc_global_score` the divisor is floored to 0.1
exactly when the elapsed time is non-positive (publish time in the future or
equal to now); for strictly positive elapsed times, including those below
0.1 hours, the raw value is used.  The separate velocity of the results
loops does apply the `max(hours_since, 0.1)` floor. -/
theorem hoursEff_floor_only_nonpos (h : ℚ) (v : ℕ) :
    (h ≤ 0 → hoursEff h = 1/10) ∧ (0 < h → hoursEff h = h) ∧
    (h ≤ 0 → loop_velocity v h = (v : ℚ) / (1/10)) := by
  refine ⟨?_, ?_, ?_⟩
  · intro h0; unfold hoursEff; rw [if_pos h0]
  · intro h0; unfold hoursEff; rw [if_neg (not_le.mpr h0)]
  · intro h0; unfold loop_velocity
    congr 1
    exact max_eq_right (le_trans h0 (by norm_num))

/-- Witness for `hoursEff_floor_only_nonpos` at hours_since -2, 2 and
views 7. -/
theorem hoursEff_floor_only_nonpos_w :
    hoursEff (-2) = 1/10 ∧ hoursEff 2 = 2 ∧ loop_velocity 7 (-2) = (7 : ℚ) / (1/10) :=
  ⟨(hoursEff_floor_only_nonpos (-2) 7).1 (by decide),
   (hoursEff_floor_only_nonpos 2 7).2.1 (by decide),
   (hoursEff_floor_only_nonpos (-2) 7).2.2 (by decide)⟩

/-- C10: the scoring function is total: the effective velocity divisor is
positive for every rational hours_since, the engagement divisor
`max(views, 1)` is positive, and the subscriber divisor is non-zero whenever
the subscriber branch is taken. -/
theorem score_divisors_pos (v s : ℕ) (h : ℚ) :
    0 < hoursEff h ∧ (0 : ℚ) < max (v : ℚ) 1 ∧ (0 < s → ((s : ℚ) ≠ 0)) :=
  ⟨hoursEff_pos h, lt_of_lt_of_le one_pos (le_max_right _ _),
   fun hs => (Nat.cast_pos.mpr hs).ne'⟩

/-- Witness for `score_divisors_pos` at views 4, subscribers 3,
hours_since 0. -/
theorem score_divisors_pos_w :
    0 < hoursEff 0 ∧ (0 : ℚ) < max ((4 : ℕ) : ℚ) 1 ∧ ((3 : ℕ) : ℚ) ≠ 0 :=
  ⟨(score_divisors_pos 4 3 0).1, (score_divisors_pos 4 3 0).2.1,
   (score_divisors_pos 4 3 0).2.2 (by decide)⟩

/-! The session quota counter.  Every fetch site mutates
`st.session_state.quota_used += QUOTA_COSTS[kind]` unconditionally; the
sidebar reset button sets it to 0; the display computes
`DAILY_QUOTA_LIMIT - quota_used`. -/

/-- One session quota event: an unconditional charge at a fetch site, or the
sidebar reset. -/
inductive QuotaOp where
  | charge (kind : OpKind)
  | reset
deriving DecidableEq

/-- Effect of one quota event on `quota_used`. -/
def applyQuotaOp (used : ℕ) : QuotaOp → ℕ
  | .charge kind => used + QUOTA_COSTS kind
  | .reset => 0

/-- Effect of a sequence of quota events on `quota_used`. -/
def applyQuotaOps (used : ℕ) (ops : List QuotaOp) : ℕ :=
  ops.foldl applyQuotaOp used

/-- Sidebar value `remaining = DAILY_QUOTA_LIMIT - st.session_state.quota_used`
(an integer, so it can go negative). -/
def remaining (used : ℕ) : ℤ := (DAILY_QUOTA_LIMIT : ℤ) - (used : ℤ)

theorem le_applyQuotaOps (ops : List QuotaOp) (used : ℕ)
    (hr : QuotaOp.reset ∉ ops) : used ≤ applyQuotaOps used ops := by
  induction ops generalizing used with
  | nil => exact le_refl _
  | cons op rest ih =>
    match op with
    | .charge kind =>
      have h1 : used ≤ used + QUOTA_COSTS kind := Nat.le_add_right _ _
      have h2 := ih (used + QUOTA_COSTS kind) (fun hm => hr (List.mem_cons_of_mem _ hm))
      exact le_trans h1 h2
    | .reset => exact absurd (List.mem_cons_self _ _) hr

/-- C8: the session quota counter never decreases across any reset-free
sequence of fetch operations; a charge is unconditional (it adds the
operation's weight no matter how large `used` already is), reset returns the
counter to 0, and the displayed remaining value can become negative (here
after 101 keyword searches at weight 100 against the 10000 limit). -/
theorem applyQuotaOps_replicate_charge (k : OpKind) (n used : ℕ) :
    applyQuotaOps used (List.replicate n (.charge k)) = used + n * QUOTA_COSTS k := by
  induction n generalizing used with
  | zero => simp [applyQuotaOps]
  | succ m ih =>
    rw [List.replicate_succ]
    show applyQuotaOps (used + QUOTA_COSTS k) (List.replicate m (.charge k)) = _
    rw [ih]
    ring

theorem quota_soft_budget (used u : ℕ) (k : OpKind) (ops : List QuotaOp)
    (hr : QuotaOp.reset ∉ ops) :
    used ≤ applyQuotaOps used ops ∧
    applyQuotaOp u (.charge k) = u + QUOTA_COSTS k ∧
    applyQuotaOp u .reset = 0 ∧
    remaining (applyQuotaOps 0 (List.replicate 101 (.charge .search))) < 0 := by
  refine ⟨le_applyQuotaOps ops used hr, rfl, rfl, ?_⟩
  rw [applyQuotaOps_replicate_charge]
  decide

/-- Witness for `quota_soft_budget`: two charges, no reset. -/
theorem quota_soft_budget_w :
    7 ≤ applyQuotaOps 7 [QuotaOp.charge .search, QuotaOp.charge .videos] ∧
    applyQuotaOp 10050 (.charge .search) = 10050 + QUOTA_COSTS .search ∧
    applyQuotaOp 10050 .reset = 0 ∧
    remaining (applyQuotaOps 0 (List.replicate 101 (.charge .search))) < 0 :=
  quota_soft_budget 7 10050 .search
    [QuotaOp.charge .search, QuotaOp.charge .videos] (by decide)

/-! Batching: the source loop `for i in range(0, len(video_ids), 50)` with
`batch = video_ids[i:i+50]`. -/

/-- The consecutive batches `video_ids[i:i+50]` for `i = 0, 50, 100, ...`. -/
def chunks50 {α : Type} (l : List α) : List (List α) :=
  match l with
  | [] => []
  | a :: rest => (a :: rest).take 50 :: chunks50 ((a :: rest).drop 50)
termination_by l.length
decreasing_by simp [List.length_drop]; omega

theorem chunks50_eq_cons {α : Type} (l : List α) (h : l ≠ []) :
    chunks50 l = l.take 50 :: chunks50 (l.drop 50) := by
  match l with
  | [] => exact absurd rfl h
  | a :: rest => rw [chunks50]

theorem chunks50_flatten {α : Type} (l : List α) : (chunks50 l).flatten = l := by
  induction l using chunks50.induct with
  | case1 => simp [chunks50]
  | case2 a rest ih =>
    rw [chunks50]
    simp at ih
    simp [ih]

theorem chunks50_batch_size {α : Type} (l : List α) (b : List α)
    (hb : b ∈ chunks50 l) : b.length ≤ 50 ∧ b ≠ [] := by
  induction l using chunks50.induct with
  | case1 => simp [chunks50] at hb
  | case2 a rest ih =>
    rw [chunks50] at hb
    rcases List.mem_cons.mp hb with h | h
    · subst h
      refine ⟨List.length_take_le _ _, ?_⟩
      simp
    · exact ih h

theorem chunks50_length {α : Type} (l : List α) :
    (chunks50 l).length = (l.length + 49) / 50 := by
  induction l using chunks50.induct with
  | case1 => simp [chunks50]
  | case2 a rest ih =>
    rw [chunks50]
    simp only [List.length_cons, ih, List.length_drop]
    omega

/-- One YouTube `videos().list` response item, projected to the fields the
code extracts into `stats[video_id]`. -/
structure StatRec where
  title : String
  channel_title : String
  channel_id : String
  published_at : String
  duration : ℕ
  views : ℕ
  likes : ℕ
  comments : ℕ
  thumbnail : String
deriving DecidableEq

/-- The batch loop inside `fetch_stats`: one remote call per batch, then
`quota_used += QUOTA_COSTS['videos']`; an exception aborts the loop. -/
def statsLoop (remote : List String → Except Unit (List (String × StatRec)))
    (quota : ℕ) (acc : List (String × StatRec)) :
    List (List String) → Except Unit (List (String × StatRec)) × ℕ
  | [] => (.ok acc, quota)
  | b :: bs =>
    match remote b with
    | .error e => (.error e, quota)
    | .ok items => statsLoop remote (quota + QUOTA_COSTS .videos) (acc ++ items) bs

/-- `fetch_stats(api_key, video_ids)`: batches of 50, one remote call and one
`videos`-weight charge per batch; any remote failure makes the whole
operation return the empty map (the `except` branch returns `{}`). -/
def fetch_stats (remote : List String → Except Unit (List (String × StatRec)))
    (video_ids : List String) (quota : ℕ) : List (String × StatRec) × ℕ :=
  match statsLoop remote quota [] (chunks50 video_ids) with
  | (.ok stats, q) => (stats, q)
  | (.error _, q) => ([], q)

theorem statsLoop_ok (remote : List String → Except Unit (List (String × StatRec)))
    (bs : List (List String)) (quota : ℕ) (acc : List (String × StatRec))
    (hok : ∀ b ∈ bs, ∃ r, remote b = .ok r) :
    ∃ res, statsLoop remote quota acc bs =
      (.ok res, quota + bs.length * QUOTA_COSTS .videos) := by
  induction bs generalizing quota acc with
  | nil => exact ⟨acc, by simp [statsLoop]⟩
  | cons b rest ih =>
    obtain ⟨r, hr⟩ := hok b (List.mem_cons_self _ _)
    obtain ⟨res, hres⟩ := ih (quota + QUOTA_COSTS .videos) (acc ++ r)
      (fun bb hbb => hok bb (List.mem_cons_of_mem _ hbb))
    refine ⟨res, ?_⟩
    simp only [statsLoop, hr]
    have harr : quota + QUOTA_COSTS .videos + rest.length * QUOTA_COSTS .videos
        = quota + (b :: rest).length * QUOTA_COSTS .videos := by
      simp only [QUOTA_COSTS, List.length_cons]
      omega
    rw [hres, harr]

theorem chunks50_replicate_120 :
    chunks50 (List.replicate 120 "v") =
      [List.replicate 50 "v", List.replicate 50 "v", List.replicate 20 "v"] := by
  rw [chunks50_eq_cons _ (by simp), List.take_replicate, List.drop_replicate]
  norm_num
  rw [chunks50_eq_cons _ (by simp), List.take_replicate, List.drop_replicate]
  norm_num
  rw [chunks50_eq_cons _ (by simp), List.take_replicate, List.drop_replicate]
  norm_num
  simp [chunks50]

/-- C6: `fetch_stats` splits its input into consecutive batches of at most 50
ids (their concatenation restores the input), issues ceil(n/50) batches, and
charges the `videos` weight once per batch; in particular 120 ids give
batches of sizes 50, 50, 20 and three unit charges. -/
theorem fetch_stats_batching
    (remote : List String → Except Unit (List (String × StatRec)))
    (ids : List String) (q : ℕ)
    (hok : ∀ b ∈ chunks50 ids, ∃ r, remote b = .ok r) :
    (chunks50 ids).flatten = ids ∧
    ((chunks50 ids).all fun b => decide (b.length ≤ 50) && !(b.isEmpty)) = true ∧
    (chunks50 ids).length = (ids.length + 49) / 50 ∧
    (fetch_stats remote ids q).2 = q + (chunks50 ids).length * QUOTA_COSTS .videos ∧
    (chunks50 (List.replicate 120 "v")).map List.length = [50, 50, 20] ∧
    (fetch_stats (fun _ => .ok []) (List.replicate 120 "v") 0).2 = 3 := by
  refine ⟨chunks50_flatten ids, ?_, chunks50_length ids, ?_, ?_, ?_⟩
  · rw [List.all_eq_true]
    intro b hb
    obtain ⟨h1, h2⟩ := chunks50_batch_size ids b hb
    simp [h1, h2]
  · obtain ⟨res, hres⟩ := statsLoop_ok remote (chunks50 ids) q [] hok
    unfold fetch_stats
    rw [hres]
  · rw [chunks50_replicate_120]
    simp
  · obtain ⟨res, hres⟩ := statsLoop_ok (fun _ => .ok [])
      (chunks50 (List.replicate 120 "v")) 0 [] (fun b _ => ⟨[], rfl⟩)
    unfold fetch_stats
    rw [hres, chunks50_replicate_120]
    simp [QUOTA_COSTS]

/-- Witness for `fetch_stats_batching` with an always-succeeding remote and
the two-element id list ["a", "b"]. -/
theorem fetch_stats_batching_w :
    (chunks50 ["a", "b"]).flatten = ["a", "b"] ∧
    ((chunks50 ["a", "b"]).all fun b => decide (b.length ≤ 50) && !(b.isEmpty)) = true ∧
    (chunks50 ["a", "b"]).length = ((["a", "b"] : List String).length + 49) / 50 ∧
    (fetch_stats (fun _ => .ok []) ["a", "b"] 5).2 =
      5 + (chunks50 ["a", "b"]).length * QUOTA_COSTS .videos ∧
    (chunks50 (List.replicate 120 "v")).map List.length = [50, 50, 20] ∧
    (fetch_stats (fun _ => .ok []) (List.replicate 120 "v") 0).2 = 3 :=
  fetch_stats_batching (fun _ => .ok []) ["a", "b"] 5 (fun _ _ => ⟨[], rfl⟩)

/-! The remaining fetchers, with the try/except boundary modelled by a remote
oracle returning `Except`. -/

/-- One YouTube search response item: `item['id']['kind']` and
`item['id']['videoId']`. -/
structure SearchItem where
  kind : String
  videoId : String
deriving DecidableEq

/-- `fetch_videos_by_keyword`: on success keep the ids of `youtube#video`
items and charge the `search` weight; on any remote failure return the
empty list with the quota unchanged (the `except` branch). -/
def fetch_videos_by_keyword (response : Except Unit (List SearchItem))
    (quota : ℕ) : List String × ℕ :=
  match response with
  | .ok items =>
      ((items.filter fun i => i.kind == "youtube#video").map (fun i => i.videoId),
        quota + QUOTA_COSTS .search)
  | .error _ => ([], quota)

/-- `fetch_category_videos`: on success return the trending ids with the
region code and charge the `videos` weight; on failure return
`([], region_code)` with the quota unchanged. -/
def fetch_category_videos (response : Except Unit (List String))
    (region_code : String) (quota : ℕ) : (List String × String) × ℕ :=
  match response with
  | .ok ids => ((ids, region_code), quota + QUOTA_COSTS .videos)
  | .error _ => (([], region_code), quota)

/-- The batch loop inside `fetch_subscriber_counts`: one `channels` charge per
batch; an exception aborts the loop. -/
def subsLoop (remote : List String → Except Unit (List (String × ℕ)))
    (quota : ℕ) (acc : List (String × ℕ)) :
    List (List String) → Except Unit (List (String × ℕ)) × ℕ
  | [] => (.ok acc, quota)
  | b :: bs =>
    match remote b with
    | .error e => (.error e, quota)
    | .ok items => subsLoop remote (quota + QUOTA_COSTS .channels) (acc ++ items) bs

/-- `fetch_subscriber_counts`: deduplicate the channel ids, batch by 50,
charge `channels` per batch; any remote failure yields the empty map. -/
def fetch_subscriber_counts (remote : List String → Except Unit (List (String × ℕ)))
    (channel_ids : List String) (quota : ℕ) : List (String × ℕ) × ℕ :=
  match subsLoop remote quota [] (chunks50 channel_ids.eraseDups) with
  | (.ok subs, q) => (subs, q)
  | (.error _, q) => ([], q)

/-- C7: when the remote call fails, each fetch operation returns the empty
result of its type (empty id list, empty map, `([], region)`) instead of
propagating the error: `fetch_videos_by_keyword` and `fetch_category_videos`
on an erroring response, and `fetch_stats` / `fetch_subscriber_counts`
whenever their batch loop stops with an error. -/
theorem remote_failure_yields_empty (q qs qc : ℕ) (region : String)
    (ids cids : List String)
    (remoteS : List String → Except Unit (List (String × StatRec)))
    (remoteC : List String → Except Unit (List (String × ℕ)))
    (e e' : Unit)
    (hS : statsLoop remoteS q [] (chunks50 ids) = (.error e, qs))
    (hC : subsLoop remoteC q [] (chunks50 cids.eraseDups) = (.error e', qc)) :
    fetch_videos_by_keyword (.error ()) q = ([], q) ∧
    fetch_category_videos (.error ()) region q = (([], region), q) ∧
    fetch_stats remoteS ids q = ([], qs) ∧
    fetch_subscriber_counts remoteC cids q = ([], qc) := by
  refine ⟨rfl, rfl, ?_, ?_⟩
  · unfold fetch_stats
    rw [hS]
  · unfold fetch_subscriber_counts
    rw [hC]

/-- Witness for `remote_failure_yields_empty` with an always-failing remote
and a one-element id list. -/
theorem remote_failure_yields_empty_w :
    fetch_videos_by_keyword (.error ()) 4 = ([], 4) ∧
    fetch_category_videos (.error ()) "US" 4 = (([], "US"), 4) ∧
    fetch_stats (fun _ => .error ()) ["a"] 4 = ([], 4) ∧
    fetch_subscriber_counts (fun _ => .error ()) ["c"] 4 = ([], 4) :=
  remote_failure_yields_empty 4 4 4 "US" ["a"] ["c"]
    (fun _ => .error ()) (fun _ => .error ()) () ()
    (by rw [chunks50_eq_cons _ (by simp)]; rfl)
    (by rw [chunks50_eq_cons _ (by decide)]; rfl)

/-! The TTL cache.  Every fetcher is decorated `@st.cache_data(ttl=3600)`;
the cache itself is Streamlit library code outside this repository, so its
behaviour is modelled from the spec (§4.2 CacheLayer): a live entry is
returned without invoking the compute function or charging quota; otherwise
the function body runs (remote call + quota charge) and the result is stored
with expiry now + TTL; eviction is lazy. -/

/-- Cache TTL in seconds: `st.cache_data(ttl=3600)`. -/
def TTL : ℕ := 3600

/-- Modelled from the spec: the memoization state of one cached fetcher
(argument-keyed entries with expiry instants) together with the session
quota counter and the number of remote invocations. -/
structure CacheState (α β : Type) where
  entries : List (α × β × ℕ)
  quota_used : ℕ
  calls : ℕ
deriving DecidableEq

/-- Lazy lookup: a stored entry answers only while `now < expiry`. -/
def lookupLive {α β : Type} [DecidableEq α] (s : CacheState α β) (k : α)
    (now : ℕ) : Option β :=
  (s.entries.find? fun e => decide (e.1 = k) && decide (now < e.2.2)).map
    (fun e => e.2.1)

/-- Modelled from the spec: one call of a cached fetcher.  A live hit
returns the cached value and leaves the state unchanged; a miss invokes the
remote, charges `cost` and stores the value with expiry `now + TTL`. -/
def cachedCall {α β : Type} [DecidableEq α] (remote : α → β) (cost : ℕ)
    (s : CacheState α β) (k : α) (now : ℕ) : β × CacheState α β :=
  match lookupLive s k now with
  | some v => (v, s)
  | none =>
    (remote k,
      ⟨(k, remote k, now + TTL) :: s.entries, s.quota_used + cost, s.calls + 1⟩)

theorem lookupLive_none_mono {α β : Type} [DecidableEq α]
    (s : CacheState α β) (k : α) (t₁ t₂ : ℕ)
    (h : lookupLive s k t₁ = none) (h12 : t₁ ≤ t₂) :
    lookupLive s k t₂ = none := by
  unfold lookupLive at h ⊢
  rw [Option.map_eq_none'] at h ⊢
  rw [List.find?_eq_none] at h ⊢
  intro e he
  have h1 := h e he
  simp only [Bool.and_eq_true, decide_eq_true_eq, not_and] at h1 ⊢
  intro hk ht
  exact h1 hk (lt_of_le_of_lt h12 ht)

/-- C4: starting from a state with no live entry for key `k`, the first
cached call charges the quota once and invokes the remote once; a second
call with the same key strictly inside the TTL window returns the first
call's value and leaves the state (quota and call count included)
unchanged; a second call at or after expiry charges and invokes the remote
again. -/
theorem cache_ttl_single_charge {α β : Type} [DecidableEq α]
    (remote : α → β) (cost : ℕ) (s : CacheState α β) (k : α) (t₁ t₂ : ℕ)
    (hmiss : lookupLive s k t₁ = none) (h12 : t₁ ≤ t₂) :
    (cachedCall remote cost s k t₁).2.quota_used = s.quota_used + cost ∧
    (cachedCall remote cost s k t₁).2.calls = s.calls + 1 ∧
    (t₂ < t₁ + TTL →
      cachedCall remote cost (cachedCall remote cost s k t₁).2 k t₂ =
        ((cachedCall remote cost s k t₁).1, (cachedCall remote cost s k t₁).2)) ∧
    (t₁ + TTL ≤ t₂ →
      (cachedCall remote cost (cachedCall remote cost s k t₁).2 k t₂).2.quota_used =
        s.quota_used + cost + cost ∧
      (cachedCall remote cost (cachedCall remote cost s k t₁).2 k t₂).2.calls =
        s.calls + 2) := by
  have hfirst : cachedCall remote cost s k t₁ =
      (remote k,
        ⟨(k, remote k, t₁ + TTL) :: s.entries, s.quota_used + cost, s.calls + 1⟩) := by
    unfold cachedCall
    rw [hmiss]
  refine ⟨by rw [hfirst], by rw [hfirst], ?_, ?_⟩
  · intro hin
    have hhit : lookupLive (cachedCall remote cost s k t₁).2 k t₂ = some (remote k) := by
      rw [hfirst]
      unfold lookupLive
      rw [List.find?_cons_of_pos _ (by simp [hin])]
      rfl
    rw [hfirst] at hhit ⊢
    unfold cachedCall
    rw [hhit]
  · intro hout
    have hnone : lookupLive (cachedCall remote cost s k t₁).2 k t₂ = none := by
      rw [hfirst]
      unfold lookupLive
      rw [List.find?_cons_of_neg _ (by simp; omega)]
      have := lookupLive_none_mono s k t₁ t₂ hmiss h12
      unfold lookupLive at this
      rw [Option.map_eq_none'] at this
      rw [this]
      rfl
    rw [hfirst] at hnone
    rw [hfirst]
    unfold cachedCall
    rw [hnone]
    exact ⟨rfl, rfl⟩

/-- Witness for `cache_ttl_single_charge`: key 5 against an empty cache at
times 0, 10 (inside TTL) and 0, 3600 (at expiry). -/
theorem cache_ttl_single_charge_w :
    (cachedCall (fun _ : ℕ => 7) 100 ⟨[], 0, 0⟩ 5 0).2.quota_used = 0 + 100 ∧
    (cachedCall (fun _ : ℕ => 7) 100 ⟨[], 0, 0⟩ 5 0).2.calls = 0 + 1 ∧
    cachedCall (fun _ : ℕ => 7) 100 ((cachedCall (fun _ : ℕ => 7) 100 ⟨[], 0, 0⟩ 5 0).2) 5 10 =
      ((cachedCall (fun _ : ℕ => 7) 100 ⟨[], 0, 0⟩ 5 0).1,
        (cachedCall (fun _ : ℕ => 7) 100 ⟨[], 0, 0⟩ 5 0).2) ∧
    (cachedCall (fun _ : ℕ => 7) 100 ((cachedCall (fun _ : ℕ => 7) 100 ⟨[], 0, 0⟩ 5 0).2) 5 3600).2.quota_used =
      0 + 100 + 100 ∧
    (cachedCall (fun _ : ℕ => 7) 100 ((cachedCall (fun _ : ℕ => 7) 100 ⟨[], 0, 0⟩ 5 0).2) 5 3600).2.calls =
      0 + 2 := by
  have h1 := cache_ttl_single_charge (fun _ : ℕ => 7) 100 ⟨[], 0, 0⟩ 5 0 10 rfl (by decide)
  have h2 := cache_ttl_single_charge (fun _ : ℕ => 7) 100 ⟨[], 0, 0⟩ 5 0 3600 rfl (by decide)
  exact ⟨h1.1, h1.2.1, h1.2.2.1 (by decide), (h2.2.2.2 (by decide)).1, (h2.2.2.2 (by decide)).2⟩

/-! The 20-region category sweep with first-seen-wins dedup. -/

/-- Source constant `GLOBAL_TOP_COUNTRIES`: the fixed ordered 20-country
list (ISO code, display name). -/
def GLOBAL_TOP_COUNTRIES : List (String × String) :=
  [("US", "미국"), ("IN", "인도"), ("GB", "영국"), ("JP", "일본"), ("KR", "한국"),
   ("BR", "브라질"), ("CA", "캐나다"), ("DE", "독일"), ("FR", "프랑스"), ("AU", "호주"),
   ("MX", "멕시코"), ("ES", "스페인"), ("IT", "이탈리아"), ("RU", "러시아"),
   ("ID", "인도네시아"), ("TH", "태국"), ("VN", "베트남"), ("PH", "필리핀"),
   ("AR", "아르헨티나"), ("PL", "폴란드")]

/-- Inner loop of the category sweep: `for vid in video_ids: if vid not in
video_country_map: video_country_map[vid] = country['code'];
all_video_ids.append(vid)`.  The accumulator holds (video id, origin region)
pairs in first-seen order. -/
def addRegion (acc : List (String × String)) (region : String) :
    List String → List (String × String)
  | [] => acc
  | v :: vs =>
    if v ∈ acc.map Prod.fst then addRegion acc region vs
    else addRegion (acc ++ [(v, region)]) region vs

/-- Outer loop over the ordered region list. -/
def mergeRegionsAux (acc : List (String × String)) :
    List (String × List String) → List (String × String)
  | [] => acc
  | p :: rest => mergeRegionsAux (addRegion acc p.1 p.2) rest

/-- Cross-region merge with first-seen-wins dedup, starting empty. -/
def mergeRegions (fetched : List (String × List String)) :
    List (String × String) :=
  mergeRegionsAux [] fetched

/-- The merged candidate list of the category sweep, for the per-region
trending results `remote`. -/
def categoryMerged (remote : String → List String) : List (String × String) :=
  mergeRegions (GLOBAL_TOP_COUNTRIES.map fun c => (c.1, remote c.1))

/-- The id list passed to the stats lookup: `all_video_ids[:50]`. -/
def categoryStatsIds (remote : String → List String) : List String :=
  ((categoryMerged remote).map Prod.fst).take 50

/-- Earliest region of `fetched` (in iteration order) whose result list
contains `v`. -/
def firstRegion (fetched : List (String × List String)) (v : String) :
    Option String :=
  (fetched.find? fun p => decide (v ∈ p.2)).map Prod.fst

theorem addRegion_map_fst_mem (vids : List String) (acc : List (String × String))
    (region w : String) :
    (w ∈ (addRegion acc region vids).map Prod.fst) ↔
      w ∈ acc.map Prod.fst ∨ w ∈ vids := by
  induction vids generalizing acc with
  | nil => simp [addRegion]
  | cons v vs ih =>
    rw [addRegion]
    split_ifs with hv
    · rw [ih]
      constructor
      · rintro (h | h)
        · exact Or.inl h
        · exact Or.inr (List.mem_cons_of_mem _ h)
      · rintro (h | h)
        · exact Or.inl h
        · rcases List.mem_cons.mp h with rfl | h
          · exact Or.inl hv
          · exact Or.inr h
    · rw [ih]
      simp only [List.map_append, List.mem_append, List.map_cons, List.map_nil,
        List.mem_singleton, List.mem_cons]
      tauto

theorem addRegion_nodup (vids : List String) (acc : List (String × String))
    (region : String) (hnd : (acc.map Prod.fst).Nodup) :
    ((addRegion acc region vids).map Prod.fst).Nodup := by
  induction vids generalizing acc with
  | nil => exact hnd
  | cons v vs ih =>
    rw [addRegion]
    split_ifs with hv
    · exact ih acc hnd
    · refine ih _ ?_
      rw [List.map_append]
      rw [List.nodup_append]
      refine ⟨hnd, by simp, ?_⟩
      intro a ha hb
      simp only [List.map_cons, List.map_nil, List.mem_singleton] at hb
      subst hb
      exact hv ha

theorem addRegion_mem (vids : List String) (acc : List (String × String))
    (region : String) (x : String × String)
    (hx : x ∈ addRegion acc region vids) :
    x ∈ acc ∨ (x.2 = region ∧ x.1 ∈ vids ∧ x.1 ∉ acc.map Prod.fst) := by
  induction vids generalizing acc with
  | nil => exact Or.inl hx
  | cons v vs ih =>
    rw [addRegion] at hx
    split_ifs at hx with hv
    · rcases ih acc hx with h | ⟨h1, h2, h3⟩
      · exact Or.inl h
      · exact Or.inr ⟨h1, List.mem_cons_of_mem _ h2, h3⟩
    · rcases ih _ hx with h | ⟨h1, h2, h3⟩
      · rcases List.mem_append.mp h with h | h
        · exact Or.inl h
        · rcases List.mem_singleton.mp h with rfl
          exact Or.inr ⟨rfl, List.mem_cons_self _ _, hv⟩
      · rw [List.map_append, List.mem_append] at h3
        push_neg at h3
        exact Or.inr ⟨h1, List.mem_cons_of_mem _ h2, h3.1⟩

theorem mergeRegionsAux_map_fst_mem (fetched : List (String × List String))
    (acc : List (String × String)) (w : String) :
    (w ∈ (mergeRegionsAux acc fetched).map Prod.fst) ↔
      w ∈ acc.map Prod.fst ∨ ∃ p ∈ fetched, w ∈ p.2 := by
  induction fetched generalizing acc with
  | nil => simp [mergeRegionsAux]
  | cons p rest ih =>
    rw [mergeRegionsAux, ih, addRegion_map_fst_mem]
    simp only [List.mem_cons]
    constructor
    · rintro ((h | h) | ⟨pp, hp, hw⟩)
      · exact Or.inl h
      · exact Or.inr ⟨p, Or.inl rfl, h⟩
      · exact Or.inr ⟨pp, Or.inr hp, hw⟩
    · rintro (h | ⟨pp, hp | hp, hw⟩)
      · exact Or.inl (Or.inl h)
      · subst hp
        exact Or.inl (Or.inr hw)
      · exact Or.inr ⟨pp, hp, hw⟩

theorem mergeRegionsAux_nodup (fetched : List (String × List String))
    (acc : List (String × String)) (hnd : (acc.map Prod.fst).Nodup) :
    ((mergeRegionsAux acc fetched).map Prod.fst).Nodup := by
  induction fetched generalizing acc with
  | nil => exact hnd
  | cons p rest ih => exact ih _ (addRegion_nodup p.2 acc p.1 hnd)

theorem mergeRegionsAux_firstRegion (fetched : List (String × List String))
    (acc : List (String × String)) (x : String × String)
    (hx : x ∈ mergeRegionsAux acc fetched) :
    x ∈ acc ∨ (x.1 ∉ acc.map Prod.fst ∧ firstRegion fetched x.1 = some x.2) := by
  induction fetched generalizing acc with
  | nil => exact Or.inl hx
  | cons p rest ih =>
    rw [mergeRegionsAux] at hx
    rcases ih _ hx with h | ⟨h1, h2⟩
    · rcases addRegion_mem p.2 acc p.1 x h with h | ⟨h1, h2, h3⟩
      · exact Or.inl h
      · refine Or.inr ⟨h3, ?_⟩
        unfold firstRegion
        rw [List.find?_cons_of_pos _ (by simpa using h2)]
        simp [h1]
    · rw [addRegion_map_fst_mem] at h1
      push_neg at h1
      refine Or.inr ⟨h1.1, ?_⟩
      unfold firstRegion at h2 ⊢
      rw [List.find?_cons_of_neg _ (by simpa using h1.2)]
      exact h2

/-- C5: in the category sweep merge, video ids are pairwise distinct (an id
returned by several regions appears exactly once), each merged pair carries
the code of the earliest region in the fixed iteration order whose trending
list contains that id, every id returned by some region does appear, and
the id list passed to the stats lookup is the 50-element prefix of the
merged ids. -/
theorem category_merge_dedup (remote : String → List String)
    (v r w : String)
    (hvr : (v, r) ∈ categoryMerged remote)
    (hw : ∃ p ∈ GLOBAL_TOP_COUNTRIES.map (fun c => (c.1, remote c.1)), w ∈ p.2) :
    ((categoryMerged remote).map Prod.fst).Nodup ∧
    firstRegion (GLOBAL_TOP_COUNTRIES.map fun c => (c.1, remote c.1)) v = some r ∧
    (∃ rr, (w, rr) ∈ categoryMerged remote) ∧
    (categoryStatsIds remote).length ≤ 50 ∧
    categoryStatsIds remote <+: (categoryMerged remote).map Prod.fst := by
  refine ⟨mergeRegionsAux_nodup _ [] (by simp), ?_, ?_, ?_, ?_⟩
  · rcases mergeRegionsAux_firstRegion _ [] (v, r) hvr with h | ⟨_, h⟩
    · simp at h
    · exact h
  · have := (mergeRegionsAux_map_fst_mem
      (GLOBAL_TOP_COUNTRIES.map fun c => (c.1, remote c.1)) [] w).mpr
      (Or.inr hw)
    rcases List.mem_map.mp this with ⟨⟨w', rr⟩, hmem, hfst⟩
    exact ⟨rr, by simpa [← hfst] using hmem⟩
  · exact List.length_take_le _ _
  · exact List.take_prefix _ _

/-- Witness for `category_merge_dedup`: "b" is returned by both the US
region (earlier) and the IN region (later); the merge keeps it once, tagged
US. -/
theorem category_merge_dedup_w :
    ((categoryMerged fun reg =>
        if reg = "US" then ["a", "b"] else if reg = "IN" then ["b", "c"] else []).map
      Prod.fst).Nodup ∧
    firstRegion (GLOBAL_TOP_COUNTRIES.map fun c =>
        (c.1, (fun reg => if reg = "US" then ["a", "b"]
          else if reg = "IN" then ["b", "c"] else []) c.1)) "b" = some "US" ∧
    (∃ rr, ("c", rr) ∈ categoryMerged fun reg =>
        if reg = "US" then ["a", "b"] else if reg = "IN" then ["b", "c"] else []) ∧
    (categoryStatsIds fun reg =>
        if reg = "US" then ["a", "b"] else if reg = "IN" then ["b", "c"] else []).length ≤ 50 ∧
    (categoryStatsIds fun reg =>
        if reg = "US" then ["a", "b"] else if reg = "IN" then ["b", "c"] else []) <+:
      ((categoryMerged fun reg =>
        if reg = "US" then ["a", "b"] else if reg = "IN" then ["b", "c"] else []).map
      Prod.fst) :=
  category_merge_dedup
    (fun reg => if reg = "US" then ["a", "b"] else if reg = "IN" then ["b", "c"] else [])
    "b" "US" "c" (by decide) (by decide)

/-! The result list and its four sort options. -/

/-- One entry of `st.session_state.results` (the dict built in the result
loops). -/
structure Candidate where
  video_id : String
  title : String
  channel_title : String
  views : ℕ
  likes : ℕ
  comments : ℕ
  subscribers : ℕ
  duration : ℕ
  hours_since : ℚ
  velocity : ℚ
  score : ℚ
  search_country : String

/-- The four entries of the sort selectbox: score desc, views desc,
velocity desc, hours_since asc. -/
inductive SortKey where
  | byScore
  | byViews
  | byVelocity
  | byUpload

/-- The key each branch of the sort dispatch reads from a result row. -/
def sortKeyVal : SortKey → Candidate → ℚ
  | .byScore, c => c.score
  | .byViews, c => (c.views : ℚ)
  | .byVelocity, c => c.velocity
  | .byUpload, c => c.hours_since

/-- The comparator induced by `results.sort(key=..., reverse=...)`:
descending (reverse=True) for score, views and velocity; ascending for
upload age. -/
def sortLE (k : SortKey) (a b : Candidate) : Bool :=
  match k with
  | .byUpload => decide (a.hours_since ≤ b.hours_since)
  | _ => decide (sortKeyVal k b ≤ sortKeyVal k a)

/-- `results.sort(...)`: Python's stable sort, modelled by the stable merge
sort with the chosen comparator. -/
def sortResults (k : SortKey) (l : List Candidate) : List Candidate :=
  l.mergeSort (sortLE k)

theorem sortLE_trans (k : SortKey) (a b c : Candidate)
    (hab : sortLE k a b) (hbc : sortLE k b c) : sortLE k a c := by
  cases k <;>
    simp only [sortLE, sortKeyVal, decide_eq_true_eq] at hab hbc ⊢ <;>
    linarith

theorem sortLE_total (k : SortKey) (a b : Candidate) :
    sortLE k a b || sortLE k b a := by
  cases k <;>
    simp only [sortLE, sortKeyVal, Bool.or_eq_true, decide_eq_true_eq] <;>
    exact le_total _ _

/-- C9: each of the four sorts is stable: for every key value, the
candidates holding that value appear in the sorted output in exactly their
original (fetch) order. -/
theorem sortResults_stable (k : SortKey) (l : List Candidate) (q : ℚ) :
    (sortResults k l).filter (fun c => decide (sortKeyVal k c = q)) =
      l.filter (fun c => decide (sortKeyVal k c = q)) := by
  have hpair : (l.filter (fun c => decide (sortKeyVal k c = q))).Pairwise
      (fun a b => sortLE k a b = true) := by
    apply List.pairwise_of_forall_mem_list
    intro a ha b hb
    have ha' : sortKeyVal k a = q := by
      have := (List.mem_filter.mp ha).2
      simpa using this
    have hb' : sortKeyVal k b = q := by
      have := (List.mem_filter.mp hb).2
      simpa using this
    cases k <;>
      simp only [sortLE, sortKeyVal, decide_eq_true_eq] at ha' hb' ⊢ <;>
      rw [ha', hb']
  have hsl : List.Sublist (l.filter (fun c => decide (sortKeyVal k c = q)))
      (sortResults k l) :=
    List.sublist_mergeSort (sortLE_trans k) (sortLE_total k) hpair
      (List.filter_sublist l)
  have hself : (l.filter (fun c => decide (sortKeyVal k c = q))).filter
      (fun c => decide (sortKeyVal k c = q)) =
      l.filter (fun c => decide (sortKeyVal k c = q)) :=
    List.filter_eq_self.mpr (fun a ha => (List.mem_filter.mp ha).2)
  have hsl2 := hsl.filter (fun c => decide (sortKeyVal k c = q))
  rw [hself] at hsl2
  have hperm : ((sortResults k l).filter (fun c => decide (sortKeyVal k c = q))).Perm
      (l.filter (fun c => decide (sortKeyVal k c = q))) :=
    (List.mergeSort_perm l (sortLE k)).filter _
  exact (hsl2.eq_of_length hperm.length_eq.symm).symm

end Hotshot
